import Mathlib

/-!
Verification of the hybrid sourcing and scoring engine of College List AI.

The development shallowly embeds the program's data model and operations:

* the `colleges_cache` / `user_exclusions` tables and the SQL functions
  `match_colleges`, `match_colleges_excluding`, `get_user_exclusions` and
  `match_colleges_for_user` from `supabase/migrations/20241201000000_initial_setup.sql`;
* the `universities_master` table and its seed upsert
  (`INSERT ... ON CONFLICT (name) DO UPDATE`) from the migration
  `20241203000000_create_universities_master.sql`, together with the
  `update_updated_at_column` trigger;
* the flywheel write-back into `colleges_cache` (upsert keyed on `name`,
  per the architecture documentation's cache-upsert flow);
* the MatchScorer, the financial-aid summary and the single-flight
  discovery coordination, which have no implementation in the available
  sources and are modelled from the specification where indicated.

SQL `timestamptz` values are modelled as `Nat` clock readings passed in
explicitly (`NOW()` becomes a parameter), SQL `float`/`decimal` as `ℚ`,
and the pgvector cosine-distance operator `<=>` as an explicit distance
function parameter: none of the verified properties depend on the numeric
internals of the distance, only on how the SQL filters, orders and limits
by it.  A SQL table is a `List` of rows; `ORDER BY` is a stable insertion
sort on the ordering key, reflecting that the SQL imposes no order beyond
its single `ORDER BY` key.
-/

namespace CollegeListAI

/-! ## Sorting toolkit: a stable insertion sort used to model `ORDER BY`

`ORDER BY k` sorts by the key `k` ascending and guarantees nothing about the
relative order of rows with equal keys; the stable sort below keeps equal-key
rows in table order, one concrete realization of that freedom. -/

/-- Insert `a` after every leading element whose key is strictly smaller, so
an element never jumps ahead of an equal-key element already in place. -/
def insertByKey (key : α → ℚ) (a : α) : List α → List α
  | [] => [a]
  | b :: l => if key b < key a then b :: insertByKey key a l else a :: b :: l

/-- Stable insertion sort by the rational-valued key `key`, ascending. -/
def sortByKey (key : α → ℚ) : List α → List α
  | [] => []
  | a :: l => insertByKey key a (sortByKey key l)

/-- The list is sorted by `key`, ascending. -/
def SortedByKey (key : α → ℚ) (l : List α) : Prop :=
  l.Pairwise (fun a b => key a ≤ key b)

theorem mem_insertByKey (key : α → ℚ) (a x : α) (l : List α) :
    x ∈ insertByKey key a l ↔ x = a ∨ x ∈ l := by
  induction l with
  | nil => simp [insertByKey]
  | cons b l ih =>
      by_cases h : key b < key a
      · rw [show insertByKey key a (b :: l) = b :: insertByKey key a l by
          simp only [insertByKey]; rw [if_pos h]]
        simp only [List.mem_cons, ih]
        tauto
      · rw [show insertByKey key a (b :: l) = a :: b :: l by
          simp only [insertByKey]; rw [if_neg h]]
        simp only [List.mem_cons]

theorem mem_sortByKey (key : α → ℚ) (x : α) (l : List α) :
    x ∈ sortByKey key l ↔ x ∈ l := by
  induction l with
  | nil => simp [sortByKey]
  | cons a l ih => simp [sortByKey, mem_insertByKey, ih]

theorem sortedByKey_insertByKey (key : α → ℚ) (a : α) (l : List α)
    (hl : SortedByKey key l) : SortedByKey key (insertByKey key a l) := by
  induction l with
  | nil => simp [insertByKey, SortedByKey]
  | cons b l ih =>
      rcases (List.pairwise_cons.mp hl) with ⟨hb, hl'⟩
      by_cases h : key b < key a
      · have ih' := ih hl'
        rw [show insertByKey key a (b :: l) = b :: insertByKey key a l by
          simp only [insertByKey]; rw [if_pos h]]
        refine List.pairwise_cons.mpr ⟨?_, ih'⟩
        intro x hx
        rcases (mem_insertByKey key a x l).mp hx with rfl | hx'
        · exact le_of_lt h
        · exact hb x hx'
      · have hab : key a ≤ key b := le_of_not_lt h
        rw [show insertByKey key a (b :: l) = a :: b :: l by
          simp only [insertByKey]; rw [if_neg h]]
        refine List.pairwise_cons.mpr ⟨?_, hl⟩
        intro x hx
        rcases hx with _ | hx'
        · exact hab
        · exact le_trans hab (hb x (by assumption))

theorem sortedByKey_sortByKey (key : α → ℚ) (l : List α) :
    SortedByKey key (sortByKey key l) := by
  induction l with
  | nil => simp [sortByKey, SortedByKey]
  | cons a l ih => exact sortedByKey_insertByKey key a _ ih

theorem insertByKey_eq_cons (key : α → ℚ) (a : α) (l : List α)
    (h : ∀ x ∈ l, ¬ key x < key a) : insertByKey key a l = a :: l := by
  cases l with
  | nil => rfl
  | cons b l =>
      have hb : ¬ key b < key a := h b (by simp)
      simp only [insertByKey]; rw [if_neg hb]

theorem filter_insertByKey (key : α → ℚ) (p : α → Bool) (a : α) (l : List α)
    (hl : SortedByKey key l) :
    (insertByKey key a l).filter p =
      if p a then insertByKey key a (l.filter p) else l.filter p := by
  induction l with
  | nil =>
      by_cases hpa : p a <;> simp [insertByKey, List.filter_cons, hpa]
  | cons b l ih =>
      rcases (List.pairwise_cons.mp hl) with ⟨hb, hl'⟩
      by_cases h : key b < key a
      · have ih' := ih hl'
        have hstep : insertByKey key a (b :: l) = b :: insertByKey key a l := by
          simp only [insertByKey]; rw [if_pos h]
        by_cases hpb : p b
        · by_cases hpa : p a <;>
            simp [hstep, List.filter_cons, hpb, hpa, ih', insertByKey, h]
        · by_cases hpa : p a <;>
            simp [hstep, List.filter_cons, hpb, hpa, ih']
      · -- `a` goes in front; every surviving element also refuses to precede it.
        have hxa : ∀ x ∈ (b :: l).filter p, ¬ key x < key a := by
          intro x hx
          have hx' : x ∈ b :: l := List.mem_of_mem_filter hx
          have hbx : key b ≤ key x := by
            rcases hx' with _ | hx''
            · exact le_refl _
            · exact hb x (by assumption)
          exact fun hlt => h (lt_of_le_of_lt hbx hlt)
        have hins : insertByKey key a (b :: l) = a :: b :: l := by
          simp only [insertByKey]; rw [if_neg h]
        rw [hins]
        by_cases hpa : p a
        · rw [if_pos hpa, insertByKey_eq_cons key a _ hxa]
          exact List.filter_cons_of_pos (by simpa using hpa)
        · rw [if_neg hpa]
          exact List.filter_cons_of_neg (by simpa using hpa)

theorem sortByKey_filter (key : α → ℚ) (p : α → Bool) (l : List α) :
    sortByKey key (l.filter p) = (sortByKey key l).filter p := by
  induction l with
  | nil => simp [sortByKey]
  | cons a l ih =>
      by_cases hpa : p a
      · rw [List.filter_cons_of_pos (by simpa using hpa)]
        rw [sortByKey, sortByKey, ih,
          filter_insertByKey key p a _ (sortedByKey_sortByKey key l)]
        simp [hpa]
      · rw [List.filter_cons_of_neg (by simpa using hpa)]
        rw [sortByKey, ih,
          filter_insertByKey key p a _ (sortedByKey_sortByKey key l)]
        simp [hpa]

theorem sortByKey_filter_sublist (key : α → ℚ) (p : α → Bool) (l : List α) :
    List.Sublist (sortByKey key (l.filter p)) (sortByKey key l) := by
  rw [sortByKey_filter key p l]
  exact List.filter_sublist _

/-! ## The `colleges_cache` table and the vector search functions

`CREATE TABLE colleges_cache (id uuid PRIMARY KEY, name text UNIQUE NOT NULL,
content text, embedding vector(768), last_updated timestamptz DEFAULT now())`.

The embedding type and the pgvector cosine-distance operator `<=>` are
abstract parameters `Emb` and `dist`; `id` is a `Nat` standing for the uuid. -/

/-- A row of the `colleges_cache` table. -/
structure CacheRow (Emb : Type) where
  id : Nat
  name : String
  content : String
  embedding : Emb
  lastUpdated : Nat
deriving Repr, DecidableEq

/-- The similarity the SQL computes: `1 - (cc.embedding <=> query_embedding)`. -/
def similarity (dist : Emb → Emb → ℚ) (q : Emb) (r : CacheRow Emb) : ℚ :=
  1 - dist q r.embedding

/-- The key of `ORDER BY cc.embedding <=> query_embedding`:
ascending distance, i.e. descending similarity. -/
def distKey (dist : Emb → Emb → ℚ) (q : Emb) (r : CacheRow Emb) : ℚ :=
  dist q r.embedding

/-- The `WHERE (1 - (cc.embedding <=> query_embedding)) > match_threshold` test. -/
def aboveThreshold (dist : Emb → Emb → ℚ) (q : Emb) (threshold : ℚ)
    (r : CacheRow Emb) : Bool :=
  decide (threshold < similarity dist q r)

/-- The `cc.name != ALL(excluded_names)` test of `match_colleges_excluding`:
the row survives when its name differs from every excluded name
(SQL `!=` on `text` is case-sensitive). -/
def notExcluded (excludedNames : List String) (r : CacheRow Emb) : Bool :=
  excludedNames.all (fun e => r.name != e)

/-- SQL function `match_colleges(query_embedding, match_threshold, match_count)`:
filter `colleges_cache` by the similarity threshold, order by ascending
cosine distance, and return the first `match_count` rows. -/
def match_colleges (dist : Emb → Emb → ℚ) (cache : List (CacheRow Emb))
    (query_embedding : Emb) (match_threshold : ℚ) (match_count : Nat) :
    List (CacheRow Emb) :=
  (sortByKey (distKey dist query_embedding)
      (cache.filter (aboveThreshold dist query_embedding match_threshold))).take
    match_count

/-- SQL function `match_colleges_excluding(query_embedding, excluded_names,
match_threshold, match_count)`: as `match_colleges` with the additional
`cc.name != ALL(excluded_names)` condition in the `WHERE` clause. -/
def match_colleges_excluding (dist : Emb → Emb → ℚ) (cache : List (CacheRow Emb))
    (query_embedding : Emb) (excluded_names : List String)
    (match_threshold : ℚ) (match_count : Nat) : List (CacheRow Emb) :=
  (sortByKey (distKey dist query_embedding)
      (cache.filter (fun r =>
        aboveThreshold dist query_embedding match_threshold r &&
          notExcluded excluded_names r))).take
    match_count

/-- A row of the `user_exclusions` table:
`(user_id uuid, college_name text, created_at timestamptz)`. -/
structure ExclusionRow where
  userId : Nat
  collegeName : String
  createdAt : Nat
deriving Repr, DecidableEq

/-- SQL `ARRAY_AGG` over a selected column: `NULL` (here `none`) when no row
was selected, otherwise the aggregated array. -/
def arrayAgg (l : List String) : Option (List String) :=
  if l.isEmpty then none else some l

/-- SQL function `get_user_exclusions(p_user_id)`: aggregate the user's
excluded college names and `COALESCE` the `NULL` aggregate to `'{}'`. -/
def get_user_exclusions (user_exclusions : List ExclusionRow) (p_user_id : Nat) :
    List String :=
  (arrayAgg (((user_exclusions.filter (fun e => e.userId == p_user_id)).map
    (fun e => e.collegeName)))).getD []

/-- SQL function `match_colleges_for_user(query_embedding, p_user_id,
match_threshold, match_count)`: fetch the user's exclusions and delegate to
`match_colleges_excluding`. -/
def match_colleges_for_user (dist : Emb → Emb → ℚ) (cache : List (CacheRow Emb))
    (user_exclusions : List ExclusionRow) (query_embedding : Emb)
    (p_user_id : Nat) (match_threshold : ℚ) (match_count : Nat) :
    List (CacheRow Emb) :=
  match_colleges_excluding dist cache query_embedding
    (get_user_exclusions user_exclusions p_user_id) match_threshold match_count

/-! ## Vector matcher theorems (claims C4, C2, C10) -/

/-- Claim C4 (amended): `match_colleges` returns only rows whose similarity
`1 - (embedding <=> query)` strictly exceeds the threshold, ordered by higher
similarity first, and returns at most `match_count` rows.  (The tie-break by
most recent `lastVerified` claimed by the specification is settled separately:
the SQL orders by the distance alone.) -/
theorem match_colleges_threshold_order_limit
    (dist : Emb → Emb → ℚ) (cache : List (CacheRow Emb)) (q : Emb)
    (threshold : ℚ) (count : Nat) :
    (∀ r ∈ match_colleges dist cache q threshold count,
        threshold < similarity dist q r)
    ∧ (match_colleges dist cache q threshold count).length ≤ count
    ∧ (match_colleges dist cache q threshold count).Pairwise
        (fun r s => similarity dist q s ≤ similarity dist q r) := by
  refine ⟨?_, ?_, ?_⟩
  · intro r hr
    have h1 : r ∈ sortByKey (distKey dist q)
        (cache.filter (aboveThreshold dist q threshold)) :=
      List.take_subset _ _ hr
    have h2 : r ∈ cache.filter (aboveThreshold dist q threshold) :=
      (mem_sortByKey _ _ _).mp h1
    have h3 := (List.mem_filter.mp h2).2
    simp only [aboveThreshold, decide_eq_true_eq] at h3
    exact h3
  · exact List.length_take_le count
      (sortByKey (distKey dist q) (cache.filter (aboveThreshold dist q threshold)))
  · have hs := sortedByKey_sortByKey (distKey dist q)
      (cache.filter (aboveThreshold dist q threshold))
    have hsub : List.Sublist (match_colleges dist cache q threshold count)
        (sortByKey (distKey dist q) (cache.filter (aboveThreshold dist q threshold))) :=
      List.take_sublist _ _
    have hpw := List.Pairwise.sublist hsub hs
    refine hpw.imp ?_
    intro r s h
    have h' : dist q r.embedding ≤ dist q s.embedding := h
    simp only [similarity]
    linarith

/-- The result ordering the specification claims for `findSimilar` /
`match_colleges` (C4): higher similarity strictly first, ties broken by most
recent `lastVerified` (`last_updated`). -/
def TieBrokenByLastVerified (dist : Emb → Emb → ℚ) (q : Emb)
    (l : List (CacheRow Emb)) : Prop :=
  l.Pairwise (fun r s =>
    similarity dist q s < similarity dist q r ∨
      (similarity dist q r = similarity dist q s ∧ s.lastUpdated ≤ r.lastUpdated))

/-- A degenerate distance for concrete instances: every row is equally close. -/
def constDist : Unit → Unit → ℚ := fun _ _ => 0

/-- A cached row verified at time 1. -/
def rowOlder : CacheRow Unit := ⟨1, "Alpha University", "data", (), 1⟩

/-- A cached row verified at time 2, later than `rowOlder`. -/
def rowNewer : CacheRow Unit := ⟨2, "Beta University", "data", (), 2⟩

/-- Claim C4 counterexample: on two rows at equal distance from the query,
`match_colleges` returns them in scan order — the older-verified row first —
so its results are not tie-broken by most recent `lastVerified`; the SQL
`ORDER BY` clause uses the distance alone. -/
theorem match_colleges_tiebreak_counterexample :
    match_colleges constDist [rowOlder, rowNewer] () 0 10 = [rowOlder, rowNewer]
    ∧ ¬ TieBrokenByLastVerified constDist ()
        (match_colleges constDist [rowOlder, rowNewer] () 0 10) := by
  have h : match_colleges constDist [rowOlder, rowNewer] () 0 10 =
      [rowOlder, rowNewer] := by
    norm_num [match_colleges, aboveThreshold, similarity, constDist, distKey,
      sortByKey, insertByKey, rowOlder, rowNewer, List.filter_cons, List.take]
  refine ⟨h, ?_⟩
  rw [h]
  intro hpw
  rcases List.pairwise_cons.mp hpw with ⟨hfirst, _⟩
  rcases hfirst rowNewer (by simp) with hlt | ⟨_, hle⟩
  · simp [similarity, constDist] at hlt
  · simp [rowOlder, rowNewer] at hle

/-- ASCII-lowercased character codes of a string, used to express the
specification's case-insensitive name comparison. -/
def lowerCodes (s : String) : List Nat :=
  s.data.map (fun c => if 65 ≤ c.toNat ∧ c.toNat ≤ 90 then c.toNat + 32 else c.toNat)

/-- The exclusion behaviour the specification claims (C2): no returned row's
name matches an excluded name case-insensitively. -/
def CaseInsensitiveExclusionOk (output : List (CacheRow Emb))
    (excludedNames : List String) : Prop :=
  ∀ r ∈ output, ∀ e ∈ excludedNames, lowerCodes r.name ≠ lowerCodes e

/-- A cached row whose name is the uppercase `"MIT"`. -/
def rowMIT : CacheRow Unit := ⟨3, "MIT", "data", (), 5⟩

/-- Claim C2 counterexample: `match_colleges_excluding` filters with SQL `!=`,
which is case-sensitive on `text`: excluding `"mit"` leaves the stored row
named `"MIT"` in the result, although the two names are equal
case-insensitively. -/
theorem match_colleges_excluding_case_counterexample :
    match_colleges_excluding constDist [rowMIT] () ["mit"] 0 10 = [rowMIT]
    ∧ ¬ CaseInsensitiveExclusionOk
        (match_colleges_excluding constDist [rowMIT] () ["mit"] 0 10) ["mit"] := by
  have h : match_colleges_excluding constDist [rowMIT] () ["mit"] 0 10 =
      [rowMIT] := by
    norm_num [match_colleges_excluding, aboveThreshold, similarity, constDist,
      distKey, notExcluded, sortByKey, insertByKey, rowMIT, List.filter_cons,
      List.take]
  refine ⟨h, ?_⟩
  rw [h]
  intro hok
  have := hok rowMIT (by simp) "mit" (by simp)
  exact this (by decide)

/-- Claim C2 (amended): `match_colleges_excluding` removes exactly the rows
whose name equals an excluded name case-sensitively, and the surviving rows
appear in the same relative order as the similarity-ranked, threshold-filtered
candidates without exclusions (the output is a sublist of that ranking). -/
theorem match_colleges_excluding_exact_and_order
    (dist : Emb → Emb → ℚ) (cache : List (CacheRow Emb)) (q : Emb)
    (excluded : List String) (threshold : ℚ) (count : Nat) :
    (∀ r ∈ match_colleges_excluding dist cache q excluded threshold count,
        r.name ∉ excluded)
    ∧ List.Sublist (match_colleges_excluding dist cache q excluded threshold count)
        (sortByKey (distKey dist q) (cache.filter (aboveThreshold dist q threshold))) := by
  constructor
  · intro r hr he
    have h1 : r ∈ sortByKey (distKey dist q)
        (cache.filter (fun s => aboveThreshold dist q threshold s &&
          notExcluded excluded s)) :=
      List.take_subset _ _ hr
    have h2 := (List.mem_filter.mp ((mem_sortByKey _ _ _).mp h1)).2
    have h3 : notExcluded excluded r = true := by
      cases hb : notExcluded excluded r
      · rw [hb] at h2; simp at h2
      · rfl
    have h4 := (List.all_eq_true.mp h3) r.name he
    simp at h4
  · have hff : cache.filter (fun s => aboveThreshold dist q threshold s &&
        notExcluded excluded s) =
        (cache.filter (aboveThreshold dist q threshold)).filter
          (notExcluded excluded) := by
      rw [List.filter_filter]
      apply List.filter_congr
      intro r _
      exact Bool.and_comm _ _
    have hstep : match_colleges_excluding dist cache q excluded threshold count =
        ((sortByKey (distKey dist q)
          (cache.filter (aboveThreshold dist q threshold))).filter
            (notExcluded excluded)).take count := by
      rw [match_colleges_excluding, hff, sortByKey_filter]
    rw [hstep]
    exact List.Sublist.trans (List.take_sublist _ _) (List.filter_sublist _)

/-- Claim C10: `match_colleges_for_user` returns exactly the rows, in the same
order, of `match_colleges_excluding` applied to `get_user_exclusions`; and for
a user with no exclusion rows `get_user_exclusions` yields the empty array (the
`NULL` aggregate is coalesced), so the search coincides with the unfiltered
`match_colleges`. -/
theorem match_colleges_for_user_refines
    (dist : Emb → Emb → ℚ) (cache : List (CacheRow Emb))
    (user_exclusions : List ExclusionRow) (q : Emb) (u : Nat)
    (threshold : ℚ) (count : Nat) :
    match_colleges_for_user dist cache user_exclusions q u threshold count =
      match_colleges_excluding dist cache q
        (get_user_exclusions user_exclusions u) threshold count
    ∧ ((∀ e ∈ user_exclusions, e.userId ≠ u) →
        get_user_exclusions user_exclusions u = []
        ∧ match_colleges_for_user dist cache user_exclusions q u threshold count =
            match_colleges dist cache q threshold count) := by
  constructor
  · rfl
  · intro hnone
    have hfe : user_exclusions.filter (fun e => e.userId == u) = [] := by
      apply List.filter_eq_nil_iff.mpr
      intro e he
      simpa using hnone e he
    have hge : get_user_exclusions user_exclusions u = [] := by
      rw [get_user_exclusions, hfe]
      rfl
    refine ⟨hge, ?_⟩
    rw [show match_colleges_for_user dist cache user_exclusions q u threshold count =
      match_colleges_excluding dist cache q
        (get_user_exclusions user_exclusions u) threshold count from rfl, hge]
    rw [match_colleges_excluding, match_colleges]
    congr 1
    congr 1
    apply List.filter_congr
    intro r _
    simp [notExcluded]

/-- Witness for C10: with an empty `user_exclusions` table, user 7 has no
exclusion rows, the aggregate coalesces to the empty array, and the user
search equals the plain `match_colleges`. -/
theorem match_colleges_for_user_refines_witness :
    get_user_exclusions [] 7 = []
    ∧ match_colleges_for_user constDist [rowMIT] [] () 7 0 5 =
        match_colleges constDist [rowMIT] () 0 5 := by
  have h := (match_colleges_for_user_refines constDist [rowMIT] [] () 7 0 5).2
    (by simp)
  exact h

/-! ## Flywheel write-back into `colleges_cache` (claim C1)

The architecture documentation's cache-upsert flow: `UPSERT colleges_cache`
with inputs (university name, content JSON, embedding), conflict on `name` —
update the existing row on conflict, insert otherwise.  The `content` JSON
carries the discovered data for the major the discovery ran for; it is
modelled as a structured value. -/

/-- One raw record of Discovery Adapter output: the institution name, the
major segment the discovery ran for, and the discovered payload. -/
structure RawRecord where
  name : String
  major : String
  payload : String
deriving Repr, DecidableEq

/-- Structured view of a `colleges_cache.content` JSON string: the major the
data was discovered for, plus the payload. -/
structure CacheContent where
  major : String
  payload : String
deriving Repr, DecidableEq

/-- A row of the store the flywheel writes: `name text UNIQUE`, `content`,
`last_updated` (the embedding plays no role in identity and is omitted). -/
structure StoreRow where
  name : String
  content : CacheContent
  lastUpdated : Nat
deriving Repr, DecidableEq

/-- The cache upsert, conflict target `name`: update the existing row when
the name is already stored, append a new row otherwise. -/
def upsertCache (name : String) (content : CacheContent) (now : Nat)
    (store : List StoreRow) : List StoreRow :=
  if store.any (fun r => r.name == name) then
    store.map (fun r => if r.name == name then
      { r with content := content, lastUpdated := now } else r)
  else
    store ++ [⟨name, content, now⟩]

/-- Flywheel Writer: upsert each raw discovery record into the cache. -/
def flywheelWrite (records : List RawRecord) (now : Nat)
    (store : List StoreRow) : List StoreRow :=
  records.foldl (fun s r => upsertCache r.name ⟨r.major, r.payload⟩ now s) store

/-- The store holds a record for the (institution name, major segment) pair. -/
def HoldsPair (store : List StoreRow) (name major : String) : Prop :=
  ∃ r ∈ store, r.name = name ∧ r.content.major = major

/-- The identity-key discipline claim C1 states, in the specification's words:
the (institution name, major segment) pair is the sole identity key and
re-discovery of a stored pair updates its record, so (records being created
and updated but never deleted) a single write-back can never make the store
forget a pair it held. -/
def PairIsIdentityKey : Prop :=
  ∀ (store : List StoreRow) (r : RawRecord) (now : Nat) (n m : String),
    HoldsPair store n m → HoldsPair (flywheelWrite [r] now store) n m

/-- Claim C1 counterexample: the cache upsert conflicts on `name` alone, so
discovering (MIT, Physics) after (MIT, CS) overwrites the CS row in place: the
store held the pair (MIT, CS) and afterwards does not, refuting that the
(name, major) pair is the identity key. -/
theorem flywheel_pair_key_counterexample : ¬ PairIsIdentityKey := by
  intro h
  have h1 : HoldsPair (flywheelWrite [⟨"MIT", "CS", "cs-data"⟩] 0 []) "MIT" "CS" := by
    refine ⟨⟨"MIT", ⟨"CS", "cs-data"⟩, 0⟩, ?_, rfl, rfl⟩
    decide
  have h2 := h _ ⟨"MIT", "Physics", "physics-data"⟩ 1 "MIT" "CS" h1
  have hstore : flywheelWrite [⟨"MIT", "Physics", "physics-data"⟩] 1
      (flywheelWrite [⟨"MIT", "CS", "cs-data"⟩] 0 []) =
      [⟨"MIT", ⟨"Physics", "physics-data"⟩, 1⟩] := by decide
  rw [hstore] at h2
  rcases h2 with ⟨r, hr, hname, hmajor⟩
  simp only [List.mem_singleton] at hr
  subst hr
  exact absurd hmajor (by decide)

/-- The names of the rows of a store. -/
def storeNames (store : List StoreRow) : List String :=
  store.map (fun r => r.name)

theorem storeNames_upsertCache_update (name : String) (c : CacheContent)
    (now : Nat) (store : List StoreRow)
    (h : store.any (fun r => r.name == name) = true) :
    storeNames (upsertCache name c now store) = storeNames store := by
  rw [upsertCache, if_pos h, storeNames, storeNames, List.map_map]
  have hfun : ((fun r : StoreRow => r.name) ∘
      (fun r => if r.name == name then
        { r with content := c, lastUpdated := now } else r)) =
      fun r : StoreRow => r.name := by
    funext r
    by_cases hr : (r.name == name) = true <;> simp [Function.comp, hr]
  rw [hfun]

theorem nodup_storeNames_upsertCache (name : String) (c : CacheContent)
    (now : Nat) (store : List StoreRow) (h : (storeNames store).Nodup) :
    (storeNames (upsertCache name c now store)).Nodup := by
  by_cases hany : store.any (fun r => r.name == name) = true
  · rw [storeNames_upsertCache_update name c now store hany]
    exact h
  · rw [upsertCache, if_neg hany, storeNames, List.map_append]
    rw [List.nodup_append]
    refine ⟨h, List.nodup_singleton _, ?_⟩
    intro x hx hx'
    simp only [List.map_cons, List.map_nil, List.mem_singleton] at hx'
    rcases List.mem_map.mp hx with ⟨r, hr, hrn⟩
    have hbeq : (r.name == name) = true := by
      rw [hrn, hx']
      exact beq_self_eq_true _
    exact hany (List.any_eq_true.mpr ⟨r, hr, hbeq⟩)

theorem nodup_storeNames_flywheelWrite (records : List RawRecord) (now : Nat)
    (store : List StoreRow) (h : (storeNames store).Nodup) :
    (storeNames (flywheelWrite records now store)).Nodup := by
  induction records generalizing store with
  | nil => exact h
  | cons r rs ih =>
      have hstep : flywheelWrite (r :: rs) now store =
          flywheelWrite rs now (upsertCache r.name ⟨r.major, r.payload⟩ now store) := rfl
      rw [hstep]
      exact ih _ (nodup_storeNames_upsertCache _ _ _ _ h)

/-- Claim C1 (amended): in the store the flywheel writes, the institution name
alone is the identity key: starting from an empty store, any sequence of
write-back batches leaves the row names duplicate-free — so the store never
holds two rows with the same name, and a fortiori never two rows with the same
(name, major) pair — and writing a raw record whose name is already stored
updates that row in place without changing the row count. -/
theorem flywheel_name_is_identity_key
    (batches : List (List RawRecord × Nat)) (store : List StoreRow)
    (r : RawRecord) (now : Nat) :
    (storeNames (batches.foldl (fun s b => flywheelWrite b.1 b.2 s) [])).Nodup
    ∧ (store.any (fun row => row.name == r.name) = true →
        (flywheelWrite [r] now store).length = store.length) := by
  constructor
  · have hgen : ∀ (bs : List (List RawRecord × Nat)) (s : List StoreRow),
        (storeNames s).Nodup →
        (storeNames (bs.foldl (fun s b => flywheelWrite b.1 b.2 s) s)).Nodup := by
      intro bs
      induction bs with
      | nil => intro s hs; exact hs
      | cons b bs ih =>
          intro s hs
          exact ih _ (nodup_storeNames_flywheelWrite _ _ _ hs)
    exact hgen batches [] (by simp [storeNames])
  · intro hany
    have hstep : flywheelWrite [r] now store =
        upsertCache r.name ⟨r.major, r.payload⟩ now store := rfl
    rw [hstep, upsertCache, if_pos hany]
    exact List.length_map _ _

/-- Witness for the amended claim C1: a store holding one row named `"MIT"`
satisfies the name-present hypothesis, and the write-back of a raw record for
(MIT, Physics) leaves the row count at one. -/
theorem flywheel_name_is_identity_key_witness :
    ([⟨"MIT", ⟨"CS", "cs-data"⟩, 0⟩] : List StoreRow).any
        (fun row => row.name == "MIT") = true
    ∧ (flywheelWrite [⟨"MIT", "Physics", "physics-data"⟩] 1
        [⟨"MIT", ⟨"CS", "cs-data"⟩, 0⟩]).length =
      ([⟨"MIT", ⟨"CS", "cs-data"⟩, 0⟩] : List StoreRow).length := by
  refine ⟨by decide, ?_⟩
  exact (flywheel_name_is_identity_key [] [⟨"MIT", ⟨"CS", "cs-data"⟩, 0⟩]
    ⟨"MIT", "Physics", "physics-data"⟩ 1).2 (by decide)

/-! ## The `universities_master` seed upsert (claim C5)

`INSERT INTO universities_master (name, acceptance_rate,
need_blind_international, meets_full_need, campus_setting, state, data_source)
VALUES ... ON CONFLICT (name) DO UPDATE SET acceptance_rate = EXCLUDED...,
need_blind_international = EXCLUDED..., meets_full_need = EXCLUDED...,
last_verified_at = NOW()`; the `update_updated_at_column` trigger additionally
sets `updated_at = NOW()` on every update, and the timestamp columns default
to `NOW()` on insert. -/

/-- A row of `universities_master` (the columns the seed insert touches, plus
the trigger-maintained timestamps). -/
structure MasterRow where
  name : String
  acceptanceRate : ℚ
  needBlindInternational : Bool
  meetsFullNeed : Bool
  campusSetting : String
  state : String
  dataSource : String
  lastVerifiedAt : Nat
  createdAt : Nat
  updatedAt : Nat
deriving Repr, DecidableEq

/-- The column values supplied by one row of the seed `INSERT`. -/
structure SeedValues where
  name : String
  acceptanceRate : ℚ
  needBlindInternational : Bool
  meetsFullNeed : Bool
  campusSetting : String
  state : String
  dataSource : String
deriving Repr, DecidableEq

/-- The seed upsert: on a `name` conflict only `acceptance_rate`,
`need_blind_international`, `meets_full_need` and `last_verified_at` are
updated (plus `updated_at`, via the trigger); otherwise the full row is
inserted with all three timestamps set to `NOW()`. -/
def upsertMaster (v : SeedValues) (now : Nat) (tbl : List MasterRow) :
    List MasterRow :=
  if tbl.any (fun r => r.name == v.name) then
    tbl.map (fun r => if r.name == v.name then
      { r with acceptanceRate := v.acceptanceRate,
               needBlindInternational := v.needBlindInternational,
               meetsFullNeed := v.meetsFullNeed,
               lastVerifiedAt := now,
               updatedAt := now }
      else r)
  else
    tbl ++ [⟨v.name, v.acceptanceRate, v.needBlindInternational, v.meetsFullNeed,
      v.campusSetting, v.state, v.dataSource, now, now, now⟩]

/-- The non-timestamp field values of a `universities_master` row. -/
def MasterRow.fieldValues (r : MasterRow) : SeedValues :=
  ⟨r.name, r.acceptanceRate, r.needBlindInternational, r.meetsFullNeed,
    r.campusSetting, r.state, r.dataSource⟩

/-- The non-timestamp content of the whole table, in row order. -/
def masterFieldValues (tbl : List MasterRow) : List SeedValues :=
  tbl.map MasterRow.fieldValues

theorem upsertMaster_name_present (v : SeedValues) (now : Nat)
    (tbl : List MasterRow) :
    (upsertMaster v now tbl).any (fun r => r.name == v.name) = true := by
  by_cases hany : tbl.any (fun r => r.name == v.name) = true
  · rw [upsertMaster, if_pos hany]
    rcases List.any_eq_true.mp hany with ⟨r, hr, hrb⟩
    refine List.any_eq_true.mpr
      ⟨if (r.name == v.name) = true then
        { r with acceptanceRate := v.acceptanceRate,
                 needBlindInternational := v.needBlindInternational,
                 meetsFullNeed := v.meetsFullNeed,
                 lastVerifiedAt := now,
                 updatedAt := now }
        else r, List.mem_map_of_mem _ hr, ?_⟩
    by_cases hr' : (r.name == v.name) = true
    · rw [if_pos hr']
      exact hrb
    · rw [if_neg hr']
      exact hrb
  · rw [upsertMaster, if_neg hany]
    refine List.any_eq_true.mpr
      ⟨⟨v.name, v.acceptanceRate, v.needBlindInternational, v.meetsFullNeed,
        v.campusSetting, v.state, v.dataSource, now, now, now⟩,
        List.mem_append_right _ (by simp), ?_⟩
    exact beq_self_eq_true _

theorem upsertMaster_mem_updated (v : SeedValues) (now : Nat)
    (tbl : List MasterRow) (r : MasterRow)
    (hr : r ∈ upsertMaster v now tbl) (hname : (r.name == v.name) = true) :
    r.acceptanceRate = v.acceptanceRate
    ∧ r.needBlindInternational = v.needBlindInternational
    ∧ r.meetsFullNeed = v.meetsFullNeed := by
  by_cases hany : tbl.any (fun s => s.name == v.name) = true
  · rw [upsertMaster, if_pos hany] at hr
    rcases List.mem_map.mp hr with ⟨s, _, hs⟩
    by_cases hs' : (s.name == v.name) = true
    · rw [if_pos hs'] at hs
      rw [← hs]
      exact ⟨rfl, rfl, rfl⟩
    · rw [if_neg hs'] at hs
      rw [← hs] at hname
      exact absurd hname hs'
  · rw [upsertMaster, if_neg hany] at hr
    rcases List.mem_append.mp hr with hmem | hmem
    · have : (r.name == v.name) = false := by
        cases hb : (r.name == v.name)
        · rfl
        · exact absurd (List.any_eq_true.mpr ⟨r, hmem, hb⟩) hany
      rw [hname] at this
      exact absurd this (by simp)
    · simp only [List.mem_singleton] at hmem
      subst hmem
      exact ⟨rfl, rfl, rfl⟩

/-- Claim C5: calling the seed upsert twice with identical values leaves the
table identical to calling it once with respect to every non-timestamp column,
and the second call updates the existing row rather than adding one (the row
count is unchanged). -/
theorem upsertMaster_idempotent (v : SeedValues) (t1 t2 : Nat)
    (tbl : List MasterRow) :
    masterFieldValues (upsertMaster v t2 (upsertMaster v t1 tbl)) =
      masterFieldValues (upsertMaster v t1 tbl)
    ∧ (upsertMaster v t2 (upsertMaster v t1 tbl)).length =
        (upsertMaster v t1 tbl).length := by
  have hpresent := upsertMaster_name_present v t1 tbl
  constructor
  · rw [show upsertMaster v t2 (upsertMaster v t1 tbl) =
        (upsertMaster v t1 tbl).map (fun r => if r.name == v.name then
          { r with acceptanceRate := v.acceptanceRate,
                   needBlindInternational := v.needBlindInternational,
                   meetsFullNeed := v.meetsFullNeed,
                   lastVerifiedAt := t2,
                   updatedAt := t2 }
          else r) from by rw [upsertMaster, if_pos hpresent]]
    rw [masterFieldValues, masterFieldValues, List.map_map]
    apply List.map_congr_left
    intro r hr
    by_cases hname : (r.name == v.name) = true
    · rcases upsertMaster_mem_updated v t1 tbl r hr hname with ⟨h1, h2, h3⟩
      simp only [Function.comp_apply]
      rw [if_pos hname]
      simp only [MasterRow.fieldValues, h1, h2, h3]
    · simp only [Function.comp_apply]
      rw [if_neg hname]
  · rw [show upsertMaster v t2 (upsertMaster v t1 tbl) =
        (upsertMaster v t1 tbl).map (fun r => if r.name == v.name then
          { r with acceptanceRate := v.acceptanceRate,
                   needBlindInternational := v.needBlindInternational,
                   meetsFullNeed := v.meetsFullNeed,
                   lastVerifiedAt := t2,
                   updatedAt := t2 }
          else r) from by rw [upsertMaster, if_pos hpresent]]
    exact List.length_map _ _

/-! ## MatchScorer (claims C3, C6, C8)

The MatchScorer has no implementation in the available sources (the backend
scoring code is absent; only the system prompt and the docs describe it), so
it is modelled from the specification, §4.6. -/

/-- Reach / Target / Safety — the `CollegeLabel` union of the API types. -/
inductive Label where
  | Reach
  | Target
  | Safety
deriving Repr, DecidableEq

/-- The `citizenship_status` enum of the profile migration. -/
inductive CitizenshipStatus where
  | US_CITIZEN
  | PERMANENT_RESIDENT
  | INTERNATIONAL
  | DACA
deriving Repr, DecidableEq

/-- Modelled from the spec: the StudentProfile attributes the missing
MatchScorer reads (§3, §6). -/
structure StudentProfile where
  citizenshipStatus : CitizenshipStatus
  nationality : Option String
  gpa : ℚ
  major : String
  satScore : Option Nat
  stateOfResidence : Option String
  campusVibe : Option String
  isStudentAthlete : Bool
  hasLegacyStatus : Bool
deriving Repr, DecidableEq

/-- Modelled from the spec: the institution statistics the missing MatchScorer
consumes — acceptance rate, test-score percentiles, state, campus setting and
the citizenship-segmented aid sets (§3). -/
structure InstitutionStats where
  instName : String
  instState : Option String
  acceptanceRate : Option ℚ
  sat25 : Option Nat
  sat75 : Option Nat
  campusSetting : Option String
  needBlindCountries : List String
  needAwareCountries : List String
deriving Repr, DecidableEq

/-- Modelled from the spec: the student sits below the institution's reported
25th test-score percentile; false when either figure is absent, since a
missing axis contributes neutrally (§4.6 failure semantics). -/
def belowP25 (p : StudentProfile) (i : InstitutionStats) : Bool :=
  match p.satScore, i.sat25 with
  | some s, some q => decide (s < q)
  | _, _ => false

/-- Modelled from the spec: the student is at or above the institution's
reported 75th percentile; false when either figure is absent. -/
def atOrAboveP75 (p : StudentProfile) (i : InstitutionStats) : Bool :=
  match p.satScore, i.sat75 with
  | some s, some q => decide (q ≤ s)
  | _, _ => false

/-- Modelled from the spec: the acceptance rate is reported and strictly below
the bound; an absent rate contributes neutrally. -/
def accRateBelow (i : InstitutionStats) (c : ℚ) : Bool :=
  match i.acceptanceRate with
  | some a => decide (a < c)
  | none => false

/-- Modelled from the spec: the acceptance rate is reported and strictly above
the bound; an absent rate contributes neutrally. -/
def accRateAbove (i : InstitutionStats) (c : ℚ) : Bool :=
  match i.acceptanceRate with
  | some a => decide (c < a)
  | none => false

/-- Modelled from the spec: label assignment in the §4.6 priority order —
Reach when the acceptance rate is below 0.15 or the student sits below the
25th percentile; otherwise Safety when the acceptance rate is above 0.35 and
the student is at or above the 75th percentile; otherwise Target. -/
def assignLabel (p : StudentProfile) (i : InstitutionStats) : Label :=
  if accRateBelow i (15 / 100) || belowP25 p i then Label.Reach
  else if accRateAbove i (35 / 100) && atOrAboveP75 p i then Label.Safety
  else Label.Target

theorem assignLabel_eq_reach_iff (p : StudentProfile) (i : InstitutionStats) :
    assignLabel p i = Label.Reach ↔
      (accRateBelow i (15 / 100) || belowP25 p i) = true := by
  by_cases h1 : (accRateBelow i (15 / 100) || belowP25 p i) = true
  · simp [assignLabel, h1]
  · by_cases h2 : (accRateAbove i (35 / 100) && atOrAboveP75 p i) = true
    · simp [assignLabel, h1, h2]
    · simp [assignLabel, h1, h2]

theorem assignLabel_eq_safety_iff (p : StudentProfile) (i : InstitutionStats) :
    assignLabel p i = Label.Safety ↔
      ((accRateBelow i (15 / 100) || belowP25 p i) = false
        ∧ (accRateAbove i (35 / 100) && atOrAboveP75 p i) = true) := by
  by_cases h1 : (accRateBelow i (15 / 100) || belowP25 p i) = true
  · simp [assignLabel, h1]
  · by_cases h2 : (accRateAbove i (35 / 100) && atOrAboveP75 p i) = true
    · simp [assignLabel, h1, h2]
    · simp [assignLabel, h1, h2]

theorem assignLabel_eq_target_iff (p : StudentProfile) (i : InstitutionStats) :
    assignLabel p i = Label.Target ↔
      ((accRateBelow i (15 / 100) || belowP25 p i) = false
        ∧ (accRateAbove i (35 / 100) && atOrAboveP75 p i) = false) := by
  by_cases h1 : (accRateBelow i (15 / 100) || belowP25 p i) = true
  · simp [assignLabel, h1]
  · by_cases h2 : (accRateAbove i (35 / 100) && atOrAboveP75 p i) = true
    · simp [assignLabel, h1, h2]
    · simp [assignLabel, h1, h2]

/-- Scenario A student: SAT 1200, below the institution's 25th percentile. -/
def scenarioAProfile : StudentProfile :=
  ⟨CitizenshipStatus.US_CITIZEN, none, 37 / 10, "CS", some 1200, none, none,
    false, false⟩

/-- Scenario A institution: acceptance rate 0.03, SAT range 1500-1570. -/
def scenarioAInst : InstitutionStats :=
  ⟨"Scenario A University", none, some (3 / 100), some 1500, some 1570, none,
    [], []⟩

/-- Claim C3: the scorer assigns the label in priority order — Reach exactly
when the acceptance rate is below 0.15 or the student sits below the 25th
percentile; otherwise Safety exactly when the acceptance rate is above 0.35
and the student is at or above the 75th percentile; Target otherwise — and an
institution with acceptance rate 0.03 and a student SAT below its 25th
percentile is labeled Reach (Scenario A). -/
theorem assignLabel_priority_order :
    (∀ p i, assignLabel p i = Label.Reach ↔
        (accRateBelow i (15 / 100) || belowP25 p i) = true)
    ∧ (∀ p i, assignLabel p i = Label.Safety ↔
        ((accRateBelow i (15 / 100) || belowP25 p i) = false
          ∧ (accRateAbove i (35 / 100) && atOrAboveP75 p i) = true))
    ∧ (∀ p i, assignLabel p i = Label.Target ↔
        ((accRateBelow i (15 / 100) || belowP25 p i) = false
          ∧ (accRateAbove i (35 / 100) && atOrAboveP75 p i) = false))
    ∧ assignLabel scenarioAProfile scenarioAInst = Label.Reach := by
  refine ⟨assignLabel_eq_reach_iff, assignLabel_eq_safety_iff,
    assignLabel_eq_target_iff, ?_⟩
  apply (assignLabel_eq_reach_iff _ _).mpr
  apply (Bool.or_eq_true _ _).mpr
  left
  norm_num [accRateBelow, scenarioAInst]

/-- Rank of a label along the Reach → Target → Safety direction. -/
def labelRank : Label → Nat
  | Label.Reach => 0
  | Label.Target => 1
  | Label.Safety => 2

/-- The profile with its test score set to `s`, all else unchanged. -/
def withSat (p : StudentProfile) (s : Nat) : StudentProfile :=
  { p with satScore := some s }

/-- Claim C6: for a fixed institution, holding every other scorer input
constant, increasing the student's test score can only move the label along
Reach → Target → Safety, never backwards. -/
theorem assignLabel_monotone_in_sat (p : StudentProfile) (i : InstitutionStats)
    (s1 s2 : Nat) (hs : s1 ≤ s2) :
    labelRank (assignLabel (withSat p s1) i) ≤
      labelRank (assignLabel (withSat p s2) i) := by
  have hb : belowP25 (withSat p s2) i = true → belowP25 (withSat p s1) i = true := by
    cases hq : i.sat25 with
    | none =>
        intro h
        exact absurd h (by simp [belowP25, withSat, hq])
    | some q =>
        intro h
        simp only [belowP25, withSat, hq, decide_eq_true_eq] at h ⊢
        omega
  have ha : atOrAboveP75 (withSat p s1) i = true →
      atOrAboveP75 (withSat p s2) i = true := by
    cases hq : i.sat75 with
    | none =>
        intro h
        exact absurd h (by simp [atOrAboveP75, withSat, hq])
    | some q =>
        intro h
        simp only [atOrAboveP75, withSat, hq, decide_eq_true_eq] at h ⊢
        omega
  have key1 : assignLabel (withSat p s2) i = Label.Reach →
      assignLabel (withSat p s1) i = Label.Reach := by
    intro h2
    have hR2 := (assignLabel_eq_reach_iff _ _).mp h2
    apply (assignLabel_eq_reach_iff _ _).mpr
    rcases (Bool.or_eq_true _ _).mp hR2 with h | h
    · exact (Bool.or_eq_true _ _).mpr (Or.inl h)
    · exact (Bool.or_eq_true _ _).mpr (Or.inr (hb h))
  have key2 : assignLabel (withSat p s1) i = Label.Safety →
      assignLabel (withSat p s2) i = Label.Safety := by
    intro h1
    rcases (assignLabel_eq_safety_iff _ _).mp h1 with ⟨hR1, hS1⟩
    rcases (Bool.and_eq_true _ _).mp hS1 with ⟨hacc, h75⟩
    apply (assignLabel_eq_safety_iff _ _).mpr
    constructor
    · cases hx : (accRateBelow i (15 / 100) || belowP25 (withSat p s2) i) with
      | false => rfl
      | true =>
          exfalso
          rcases (Bool.or_eq_true _ _).mp hx with h | h
          · have : (accRateBelow i (15 / 100) || belowP25 (withSat p s1) i) = true :=
              (Bool.or_eq_true _ _).mpr (Or.inl h)
            rw [this] at hR1
            exact absurd hR1 (by decide)
          · have : (accRateBelow i (15 / 100) || belowP25 (withSat p s1) i) = true :=
              (Bool.or_eq_true _ _).mpr (Or.inr (hb h))
            rw [this] at hR1
            exact absurd hR1 (by decide)
    · exact (Bool.and_eq_true _ _).mpr ⟨hacc, ha h75⟩
  cases hl2 : assignLabel (withSat p s2) i with
  | Reach => rw [key1 hl2]
  | Target =>
      cases hl1 : assignLabel (withSat p s1) i with
      | Reach => simp [labelRank]
      | Target => exact le_refl _
      | Safety =>
          rw [key2 hl1] at hl2
          exact absurd hl2 (by decide)
  | Safety =>
      cases hl1 : assignLabel (withSat p s1) i with
      | Reach => simp [labelRank]
      | Target => simp [labelRank]
      | Safety => exact le_refl _

/-- Witness for claim C6: a concrete score increase from 1000 to 1400 against
the Scenario A institution does not move the label backwards. -/
theorem assignLabel_monotone_in_sat_witness :
    (1000 : Nat) ≤ 1400
    ∧ labelRank (assignLabel (withSat scenarioAProfile 1000) scenarioAInst) ≤
        labelRank (assignLabel (withSat scenarioAProfile 1400) scenarioAInst) :=
  ⟨by decide,
    assignLabel_monotone_in_sat scenarioAProfile scenarioAInst 1000 1400
      (by decide)⟩

/-- Modelled from the spec: the institution is need-blind for the student's
declared nationality (the citizenship-segmented need-blind set). -/
def needBlindForStudent (p : StudentProfile) (i : InstitutionStats) : Bool :=
  match p.nationality with
  | some n => i.needBlindCountries.contains n
  | none => false

/-- Modelled from the spec: fit delta — the test score minus the midpoint of
the 25th-75th range, normalized; neutral 0 when data is absent (§4.6). -/
def fitDelta (p : StudentProfile) (i : InstitutionStats) : ℚ :=
  match p.satScore, i.sat25, i.sat75 with
  | some s, some a, some b => ((s : ℚ) - ((a : ℚ) + (b : ℚ)) / 2) / 1600
  | _, _, _ => 0

/-- Clamp a score into [0, 100] (§4.6 step 3). -/
def clampScore (x : ℚ) : ℚ := max 0 (min 100 x)

/-- Modelled from the spec: the 0-100 match score — base score from fit-delta
proximity, +15 in-state bonus, +10 need-blind bonus, small campus-vibe and
athlete/legacy bonuses, clamped to [0, 100] (§4.6; the constants are the
configurable reference values). -/
def matchScore (p : StudentProfile) (i : InstitutionStats) : ℚ :=
  let base : ℚ := 50 + 100 * fitDelta p i
  let inStateBonus : ℚ :=
    match p.stateOfResidence, i.instState with
    | some s, some t => if s = t then 15 else 0
    | _, _ => 0
  let needBlindBonus : ℚ := if needBlindForStudent p i then 10 else 0
  let vibeBonus : ℚ :=
    match p.campusVibe, i.campusSetting with
    | some v, some w => if v = w then 5 else 0
    | _, _ => 0
  let signalBonus : ℚ := if p.isStudentAthlete || p.hasLegacyStatus then 5 else 0
  clampScore (base + inStateBonus + needBlindBonus + vibeBonus + signalBonus)

/-- Modelled from the spec: a scorer result — label, numeric score and the
human-readable reasoning string. -/
structure ScorerOutput where
  label : Label
  score : ℚ
  reasoning : String
deriving Repr, DecidableEq

/-- Modelled from the spec: the MatchScorer — a total function of the student
profile and institution statistics alone, with no other inputs and no
state (§4.6: pure function, no I/O). -/
def matchScorer (p : StudentProfile) (i : InstitutionStats) : ScorerOutput :=
  ⟨assignLabel p i, matchScore p i, i.instName⟩

/-- Claim C8: the MatchScorer is deterministic — as a pure function of the
profile and the statistics, two runs on identical inputs produce the identical
label and the identical numeric score. -/
theorem matchScorer_deterministic (p1 p2 : StudentProfile)
    (i1 i2 : InstitutionStats) (hp : p1 = p2) (hi : i1 = i2) :
    (matchScorer p1 i1).label = (matchScorer p2 i2).label
    ∧ (matchScorer p1 i1).score = (matchScorer p2 i2).score := by
  subst hp
  subst hi
  exact ⟨rfl, rfl⟩

/-- Witness for claim C8: two runs of the scorer on the Scenario A inputs
agree on label and score. -/
theorem matchScorer_deterministic_witness :
    (matchScorer scenarioAProfile scenarioAInst).label =
      (matchScorer scenarioAProfile scenarioAInst).label
    ∧ (matchScorer scenarioAProfile scenarioAInst).score =
        (matchScorer scenarioAProfile scenarioAInst).score :=
  matchScorer_deterministic scenarioAProfile scenarioAProfile
    scenarioAInst scenarioAInst rfl rfl

/-! ## Financial-aid summary (claim C7)

`universities_master` stores the aid policy as two Booleans with schema
defaults — `need_blind_domestic BOOLEAN DEFAULT TRUE` and
`need_blind_international BOOLEAN DEFAULT FALSE` — so there is no stored
unknown state.  The summary generator itself has no implementation in the
available sources and is modelled from the spec on top of those flags. -/

/-- The two aid-policy flags of a `universities_master` row. -/
structure AidFlags where
  needBlindDomestic : Bool
  needBlindInternational : Bool
deriving Repr, DecidableEq

/-- The flags stored when an insert supplies the given optional column values:
an omitted column takes its schema default — `TRUE` for
`need_blind_domestic`, `FALSE` for `need_blind_international`. -/
def insertAidFlags (nbd nbi : Option Bool) : AidFlags :=
  ⟨nbd.getD true, nbi.getD false⟩

/-- The student's citizenship class is domestic (every class except
INTERNATIONAL, per the system prompt's branching). -/
def isDomestic : CitizenshipStatus → Bool
  | CitizenshipStatus.INTERNATIONAL => false
  | _ => true

/-- What a financial-aid summary can state about the policy. -/
inductive AidPolicy where
  | NeedBlind
  | NeedAware
  | Unknown
deriving Repr, DecidableEq

/-- Modelled from the spec: the missing summary generator reads the stored
flag for the student's citizenship class and states need-blind when it is
set, need-aware otherwise — the two stored Booleans allow no third state. -/
def financialAidSummary (c : CitizenshipStatus) (f : AidFlags) : AidPolicy :=
  if isDomestic c then
    (if f.needBlindDomestic then AidPolicy.NeedBlind else AidPolicy.NeedAware)
  else
    (if f.needBlindInternational then AidPolicy.NeedBlind
     else AidPolicy.NeedAware)

/-- The discipline claim C7 states: when the policy for the student's
citizenship class was not supplied at insertion (the column was omitted, i.e.
the policy is not known), the summary must not state need-blind. -/
def NeverSilentlyNeedBlind : Prop :=
  ∀ (c : CitizenshipStatus) (nbd nbi : Option Bool),
    ((isDomestic c = true ∧ nbd = none) ∨ (isDomestic c = false ∧ nbi = none)) →
    financialAidSummary c (insertAidFlags nbd nbi) ≠ AidPolicy.NeedBlind

/-- Claim C7 counterexample: `need_blind_domestic` defaults to `TRUE`, so an
institution inserted with no stated domestic aid policy is summarized as
need-blind for a domestic student — a silent need-blind default; no unknown
state is representable. -/
theorem financialAidSummary_default_counterexample : ¬ NeverSilentlyNeedBlind := by
  intro h
  exact h CitizenshipStatus.US_CITIZEN none none (Or.inl ⟨rfl, rfl⟩) rfl

/-- Claim C7 (amended): for an international student the summary is decided by
the `need_blind_international` flag alone: an institution that is need-aware
for internationals (flag `FALSE` — also the schema default, so an unknown
international policy behaves the same) is summarized need-aware and never
need-blind; for a domestic student, however, an omitted domestic policy
defaults to `TRUE` and is summarized need-blind, and no unknown state
exists. -/
theorem financialAidSummary_international_need_aware (f : AidFlags)
    (nbd nbi : Option Bool) (h : f.needBlindInternational = false) :
    financialAidSummary CitizenshipStatus.INTERNATIONAL f = AidPolicy.NeedAware
    ∧ financialAidSummary CitizenshipStatus.INTERNATIONAL f ≠ AidPolicy.NeedBlind
    ∧ (insertAidFlags nbd none).needBlindInternational = false
    ∧ (insertAidFlags none nbi).needBlindDomestic = true := by
  refine ⟨?_, ?_, rfl, rfl⟩
  · simp [financialAidSummary, isDomestic, h]
  · simp [financialAidSummary, isDomestic, h]

/-- Witness for the amended claim C7: an institution need-aware for
internationals (flag false) is summarized need-aware for an international
student. -/
theorem financialAidSummary_international_need_aware_witness :
    (⟨true, false⟩ : AidFlags).needBlindInternational = false
    ∧ financialAidSummary CitizenshipStatus.INTERNATIONAL ⟨true, false⟩ =
        AidPolicy.NeedAware :=
  ⟨rfl,
    (financialAidSummary_international_need_aware ⟨true, false⟩ none none rfl).1⟩

/-! ## Single-flight discovery coordination (claim C9)

The Refresh Coordinator and its single-flight map have no implementation in
the available sources; the coordination is modelled from the spec (§5, §9):
an explicit key → in-flight-handle structure, projected here onto one
(institution, major) key, driven by arrival and resolution events. -/

/-- Events at one stale key: a request arrives and finds the key stale, or
the shared discovery resolves (success or failure). -/
inductive FlightEvent where
  | arrive
  | resolve
deriving Repr, DecidableEq

/-- Modelled from the spec: the single-flight state for one key — whether a
discovery is in flight, how many late arrivals await its result, and how many
Discovery Adapter calls have been issued. -/
structure FlightState where
  inflight : Bool
  waiting : Nat
  calls : Nat
deriving Repr, DecidableEq

/-- Modelled from the spec: an arriving request issues the external call and
records the in-flight handle when none exists, otherwise awaits the existing
one; resolution clears the handle and releases the waiters. -/
def flightStep (s : FlightState) : FlightEvent → FlightState
  | FlightEvent.arrive =>
      if s.inflight then { s with waiting := s.waiting + 1 }
      else { s with inflight := true, calls := s.calls + 1 }
  | FlightEvent.resolve => { s with inflight := false, waiting := 0 }

/-- Run the coordination from a state over a sequence of events. -/
def flightRun (s : FlightState) (events : List FlightEvent) : FlightState :=
  events.foldl flightStep s

/-- The initial state of a stale key: nothing in flight, no calls issued. -/
def flightInit : FlightState := ⟨false, 0, 0⟩

theorem flightRun_arrivals_inflight (k : Nat) (s : FlightState)
    (hs : s.inflight = true) :
    flightRun s (List.replicate k FlightEvent.arrive) =
      { s with waiting := s.waiting + k } := by
  induction k generalizing s with
  | zero => rfl
  | succ k ih =>
      rw [List.replicate_succ]
      have hstep : flightStep s FlightEvent.arrive =
          { s with waiting := s.waiting + 1 } := by
        simp [flightStep, hs]
      have hrun : flightRun s (FlightEvent.arrive ::
          List.replicate k FlightEvent.arrive) =
          flightRun (flightStep s FlightEvent.arrive)
            (List.replicate k FlightEvent.arrive) := rfl
      rw [hrun, hstep, ih { s with waiting := s.waiting + 1 } hs]
      congr 1
      show s.waiting + 1 + k = s.waiting + (k + 1)
      omega

/-- Claim C9: when N ≥ 1 concurrent requests for the same stale key all
arrive while none has yet resolved, exactly one Discovery Adapter call is
issued, and the other N - 1 requests wait on that shared call instead of
issuing their own. -/
theorem single_flight_one_call (n : Nat) (hn : 1 ≤ n) :
    (flightRun flightInit (List.replicate n FlightEvent.arrive)).calls = 1
    ∧ (flightRun flightInit (List.replicate n FlightEvent.arrive)).waiting =
        n - 1 := by
  obtain ⟨m, rfl⟩ : ∃ m, n = m + 1 := ⟨n - 1, by omega⟩
  rw [List.replicate_succ]
  have hfirst : flightStep flightInit FlightEvent.arrive = ⟨true, 0, 1⟩ := rfl
  have hrun : flightRun flightInit (FlightEvent.arrive ::
      List.replicate m FlightEvent.arrive) =
      flightRun (flightStep flightInit FlightEvent.arrive)
        (List.replicate m FlightEvent.arrive) := rfl
  rw [hrun, hfirst,
    flightRun_arrivals_inflight m ⟨true, 0, 1⟩ rfl]
  refine ⟨rfl, ?_⟩
  show 0 + m = m + 1 - 1
  omega

/-- Witness for claim C9: three concurrent arrivals at a stale key issue
exactly one discovery call. -/
theorem single_flight_one_call_witness :
    (1 : Nat) ≤ 3
    ∧ (flightRun flightInit (List.replicate 3 FlightEvent.arrive)).calls = 1 :=
  ⟨by decide, (single_flight_one_call 3 (by decide)).1⟩

/-! ## Remaining witnesses for the vector matcher theorems -/

/-- Witness for the amended claim C4: the returned row `rowOlder` clears the
threshold 0. -/
theorem match_colleges_threshold_order_limit_witness :
    (0 : ℚ) < similarity constDist () rowOlder := by
  apply (match_colleges_threshold_order_limit constDist [rowOlder, rowNewer]
    () 0 10).1 rowOlder
  norm_num [match_colleges, aboveThreshold, similarity, constDist, distKey,
    sortByKey, insertByKey, rowOlder, rowNewer, List.filter_cons, List.take]

/-- Witness for the amended claim C2: the row named `"MIT"` returned while
excluding `"Stanford"` has a name that is not among the excluded names. -/
theorem match_colleges_excluding_exact_and_order_witness :
    rowMIT.name ∉ (["Stanford"] : List String) := by
  apply (match_colleges_excluding_exact_and_order constDist [rowMIT] ()
    ["Stanford"] 0 10).1 rowMIT
  norm_num [match_colleges_excluding, aboveThreshold, similarity, constDist,
    distKey, notExcluded, sortByKey, insertByKey, rowMIT, List.filter_cons,
    List.take]

end CollegeListAI
